import Mathlib

/-!
Shallow embedding of the `ler` descriptor (Local Environment Representation)
from `pyrelate/descriptors.py`, together with proofs about its clustering,
classification, caching and histogram phases.

Modelling conventions:
* numpy float vectors are embedded as lists of exact rationals (`List ℚ`);
* the distance comparison `np.linalg.norm(u - v) < eps` is embedded as the
  equivalent squared comparison (both sides are nonnegative, so squaring is
  faithful; a negative `eps` makes the comparison false);
* `OrderedDict` / `dict` values are embedded as association lists in
  insertion order, with the dict's key-update semantics;
* Python exceptions are embedded as `Except String`;
* the Annoy approximate-nearest-neighbour query
  `a.get_nns_by_vector(lae, 1, search_k=search_k)[0]` is an external call and
  is abstracted as a function `nn : Vec → Nat` giving the returned item index;
  Annoy raises on a query vector whose length differs from the declared
  dimension, which the embedding reproduces.
-/

/-- A local-environment feature vector (one row of the stored SOAP matrix),
modelled with exact rationals. -/
abbrev Vec := List ℚ

/-- Identifier of a local atomic environment: the pair `(aid, lae_num)` of a
configuration id and an atom index. The seed's synthetic id is `('0', 0)`. -/
abbrev AtomId := String × Nat

/-- Squared Euclidean distance between two same-dimension vectors:
`np.linalg.norm(unique - lae) ** 2` (line 91 of descriptors.py). -/
def sqDist (u v : Vec) : ℚ :=
  (List.zipWith (fun a b => (a - b) * (a - b)) u v).sum

/-- The comparison `dist < eps` of line 92, where
`dist = np.linalg.norm(unique - lae)`. Since the norm is nonnegative,
`norm < eps` holds iff `0 ≤ eps` and `norm² < eps²`; this squared form avoids
irrational square roots and is exactly equivalent. -/
def distLt (u v : Vec) (eps : ℚ) : Bool :=
  decide (0 ≤ eps) && decide (sqDist u v < eps * eps)

/-- The ordered center map `U['centers']` (an `OrderedDict`). -/
abbrev Centers := List (AtomId × Vec)

/-- `OrderedDict` assignment `d[(aid, lae_num)] = v` (line 95): if the key is
present its value is updated in place (keys are unique in a dict, so the first
match is the only one), otherwise the pair is appended at the end. -/
def odSet : Centers → AtomId → Vec → Centers
  | [], k, v => [(k, v)]
  | (k', u) :: rest, k, v =>
    if k' = k then (k, v) :: rest else (k', u) :: odSet rest k v

/-- The inner scan `for unique in U['centers'].values(): ... if dist < eps:
break` (lines 90–93): returns `true` iff the scan breaks, i.e. iff some
already-registered center is within distance `eps` of `lae`; the scan stops at
the first such center. -/
def coveredScan (eps : ℚ) (lae : Vec) : List Vec → Bool
  | [] => false
  | u :: rest => if distLt u lae eps then true else coveredScan eps lae rest

/-- Part 1 of `ler` (lines 85–95), on a stream where every stored vector is
present: one pass over the `(aid, lae_num, lae)` triples; a triple whose
vector is covered by no current center is registered as a new center under its
own id (the `for ... else` clause of lines 90–95). -/
def clusterLoopA (eps : ℚ) :
    List (String × Nat × Vec) → Centers → Centers
  | [], C => C
  | (aid, n, lae) :: rest, C =>
    if coveredScan eps lae (C.map Prod.snd) then clusterLoopA eps rest C
    else clusterLoopA eps rest (odSet C (aid, n) lae)

/-- The whole clustering phase: the center map starts with the seed under the
synthetic key `('0', 0)` (line 84) and is folded over the vector stream. -/
def buildCenters (seed : Vec) (eps : ℚ)
    (stream : List (String × Nat × Vec)) : Centers :=
  clusterLoopA eps stream [(("0", 0), seed)]

/-- Part 1 of `ler` in full, with the `None` check of lines 87–89: each stored
vector may be absent (`None`), in which case a `RuntimeError` with the
verbatim message of line 89 aborts the pass. -/
def clusterLoop (eps : ℚ) :
    List (String × Nat × Option Vec) → Centers → Except String Centers
  | [], C => .ok C
  | (_, _, none) :: _, _ =>
    .error "LER requries SOAP to be generated first"
  | (aid, n, some lae) :: rest, C =>
    if coveredScan eps lae (C.map Prod.snd) then clusterLoop eps rest C
    else clusterLoop eps rest (odSet C (aid, n) lae)

/-- Minimum of a list of rationals (`none` for the empty list); used only by
the reference formulation of the registration rule. -/
def minD : List ℚ → Option ℚ
  | [] => none
  | x :: xs => some (match minD xs with | none => x | some m => min x m)

/-- Reference registration test, following the specification's wording: the
vector is covered iff the minimum distance to the currently-registered centers
is `< eps` (again in the equivalent squared form). -/
def minLt (eps : ℚ) (lae : Vec) (l : List Vec) : Bool :=
  match minD (l.map (fun u => sqDist u lae)) with
  | none => false
  | some m => decide (0 ≤ eps) && decide (m < eps * eps)

/-- The clustering loop with the reference (minimum-distance) test in place of
the early-exit scan. -/
def clusterLoopRef (eps : ℚ) :
    List (String × Nat × Vec) → Centers → Centers
  | [], C => C
  | (aid, n, lae) :: rest, C =>
    if minLt eps lae (C.map Prod.snd) then clusterLoopRef eps rest C
    else clusterLoopRef eps rest (odSet C (aid, n) lae)

/-- The clustering phase under the reference registration rule. -/
def buildCentersRef (seed : Vec) (eps : ℚ)
    (stream : List (String × Nat × Vec)) : Centers :=
  clusterLoopRef eps stream [(("0", 0), seed)]

/-- The bucket map `U['clusters']` (a plain `dict`, insertion ordered). -/
abbrev Clusters := List (AtomId × List AtomId)

/-- Lines 112–114: create the bucket on first use, then append the id of the
classified vector to it. Dict keys are unique, so the first match is the only
one; a new key is appended at the end (dict insertion order). -/
def addToCluster : Clusters → AtomId → AtomId → Clusters
  | [], k, i => [(k, [i])]
  | (k', b) :: rest, k, i =>
    if k' = k then (k', b ++ [i]) :: rest else (k', b) :: addToCluster rest k i

/-- Part 2 of `ler` (lines 106–114): each `(aid, lae_num, lae)` triple is sent
to `a.get_nns_by_vector(lae, 1, ...)`, whose returned item index `nni` selects
the owning center key via `list(U['centers'].keys())[nni]`. Annoy raises on a
query vector whose length differs from the index dimension `dim = len(seed)`;
Python's list indexing raises `IndexError` if `nni` is out of range. -/
def assignLoop (dim : Nat) (C : Centers) (nn : Vec → Nat) :
    List (String × Nat × Vec) → Clusters → Except String Clusters
  | [], m => .ok m
  | (aid, n, lae) :: rest, m =>
    if lae.length = dim then
      match (C.map Prod.fst)[nn lae]? with
      | some k => assignLoop dim C nn rest (addToCluster m k (aid, n))
      | none => .error "IndexError: list index out of range"
    else .error "Vector has wrong length"

/-- Lines 105–116 around the assignment loop: `a.save('tmp')` creates the
temporary on-disk index file, the assignment loop runs, and `os.remove('tmp')`
deletes the file. There is no `try`/`finally`, so the removal runs only when
the loop completes normally. The boolean records whether the file `'tmp'`
still exists when control leaves this sequence. -/
def classifyWithTmp (dim : Nat) (C : Centers) (nn : Vec → Nat)
    (stream : List (String × Nat × Vec)) : Except String Clusters × Bool :=
  match assignLoop dim C nn stream [] with
  | .ok m => (.ok m, false)
  | .error e => (.error e, true)

/-- The artifact `U` cached by `ler`: the ordered center map and the bucket
map. -/
structure Artifact where
  centers : Centers
  clusters : Clusters

/-- Part 2 revisits the same stored vectors as Part 1 (line 107 repeats the
`store.get` of line 86) without a `None` check; a `None` reaching Annoy would
raise a `TypeError`, but this is unreachable once Part 1 has succeeded. -/
def denull : List (String × Nat × Option Vec) →
    Except String (List (String × Nat × Vec))
  | [] => .ok []
  | (_, _, none) :: _ => .error "TypeError"
  | (aid, n, some v) :: rest => (denull rest).map (fun l => (aid, n, v) :: l)

/-- The cache-miss branch of `ler` (lines 73–116): clustering, then
classification (with the index dimension `dim = len(seed)` of line 100). The
first raised exception propagates. -/
def lerBuild (seed : Vec) (eps : ℚ)
    (stream : List (String × Nat × Option Vec)) (nn : Vec → Nat) :
    Except String Artifact := do
  let C ← clusterLoop eps stream [(("0", 0), seed)]
  let vs ← denull stream
  match classifyWithTmp seed.length C nn vs with
  | (.ok m, _) => .ok ⟨C, m⟩
  | (.error e, _) => .error e

/-- numpy float division of one number by another: when the denominator is
zero the result is not a (finite) number — `0/0` is NaN, `x/0` is ±inf — and
is modelled as `none`. The code has no branch producing this; it is what the
unguarded `result / np.sum(result)` of line 127 yields entrywise. -/
def npDiv (x y : ℚ) : Option ℚ := if y = 0 then none else some (x / y)

/-- Lines 123–126: the raw histogram vector before normalization. Its length
is `len(U['clusters'])` (line 123); entry `uid` counts the members of the
`uid`-th bucket (in bucket insertion order) whose configuration id is `aid`
(lines 124–126). -/
def bucketCounts (m : Clusters) (aid : String) : List ℚ :=
  m.map (fun p => ((p.2.countP (fun c => c.1 == aid) : ℕ) : ℚ))

/-- Line 127: `result = result / np.sum(result)`, applied to the counts
vector. -/
def lerResult (m : Clusters) (aid : String) : List (Option ℚ) :=
  (bucketCounts m aid).map (fun c => npDiv c (bucketCounts m aid).sum)

/-- The keyword arguments of the `store.get` / `store.store` pair of
lines 71–72 and 118–119, i.e. the cache key of the artifact. The `seed`
argument is *not* among them (the source comment on line 72 even asks
"add seed? or hash for seed?"). The collection, the optional `soap_fcn` and
the `**soapargs` are modelled by opaque-but-comparable stand-ins. -/
structure LerKey where
  collection : String
  eps : ℚ
  resNeeded : String
  soapFcn : Option String
  metric : String
  nTrees : Nat
  searchK : Int
  soapargs : List (String × ℚ)
deriving DecidableEq

/-- The store, restricted to the `("temp", 'U_ler')` slot used by `ler`. -/
abbrev Store := LerKey → Option Artifact

/-- `store.store(U, "temp", 'U_ler', **key)` (lines 118–119). -/
def storePut (st : Store) (k : LerKey) (U : Artifact) : Store :=
  fun k' => if k' = k then some U else st k'

/-- The whole of `ler`: look the artifact up under the seedless key
(lines 71–72); on a miss run `lerBuild` and, only if it fully succeeds, store
the artifact (lines 118–119); in every non-raising case finish with the
histogram of lines 121–128 for the configuration `aid` of the `atoms`
argument (line 122). The returned pair is (result or raised exception, store
contents afterwards). -/
def ler (st : Store) (k : LerKey) (seed : Vec)
    (stream : List (String × Nat × Option Vec)) (nn : Vec → Nat)
    (aid : String) : Except String (List (Option ℚ)) × Store :=
  match st k with
  | some U => (.ok (lerResult U.clusters aid), st)
  | none =>
    match lerBuild seed k.eps stream nn with
    | .error e => (.error e, st)
    | .ok U => (.ok (lerResult U.clusters aid), storePut st k U)

/-- The ids `(aid, lae_num)` of a stream, in traversal order. -/
def streamIds (stream : List (String × Nat × Vec)) : List AtomId :=
  stream.map (fun e => (e.1, e.2.1))

/-- The stream produced by iterating a collection (a dict of configurations)
and enumerating each stored matrix has pairwise-distinct ids, none of them
equal to the synthetic seed key `('0', 0)` drawn from outside the collection's
id space. -/
def FreshIds (stream : List (String × Nat × Vec)) : Prop :=
  (streamIds stream).Nodup ∧ ("0", 0) ∉ streamIds stream

/-- Number of local-environment vectors of configuration `aid` in the
stream. -/
def configCount (stream : List (String × Nat × Vec)) (aid : String) : Nat :=
  stream.countP (fun e => e.1 == aid)

/-- Number of cluster centers produced by the clustering phase. -/
def numCenters (seed : Vec) (eps : ℚ)
    (stream : List (String × Nat × Vec)) : Nat :=
  (buildCenters seed eps stream).length

/-- Concrete stream witnessing the failure of threshold monotonicity: one
configuration `"a"` with three two-dimensional vectors. -/
def cex5stream : List (String × Nat × Vec) :=
  [("a", 0, [5/4, 0]), ("a", 1, [5/4, 9/10]), ("a", 2, [5/4, -9/10])]

/-! ### Helper lemmas about the squared-distance function -/

theorem sqDist_nonneg (u v : Vec) : 0 ≤ sqDist u v := by
  induction u generalizing v with
  | nil => simp [sqDist]
  | cons a u ih =>
    cases v with
    | nil => simp [sqDist]
    | cons b v =>
      have h1 := ih v
      have h2 : 0 ≤ (a - b) * (a - b) := mul_self_nonneg _
      simp only [sqDist, List.zipWith_cons_cons, List.sum_cons]
      simp only [sqDist] at h1
      linarith

theorem sqDist_self (v : Vec) : sqDist v v = 0 := by
  induction v with
  | nil => simp [sqDist]
  | cons a u ih =>
    simp only [sqDist, List.zipWith_cons_cons, List.sum_cons] at *
    simp [ih]

theorem sqDist_comm (u v : Vec) : sqDist u v = sqDist v u := by
  induction u generalizing v with
  | nil => cases v <;> simp [sqDist]
  | cons a u ih =>
    cases v with
    | nil => simp [sqDist]
    | cons b v =>
      simp only [sqDist, List.zipWith_cons_cons, List.sum_cons] at *
      rw [ih]; ring_nf

theorem sqDist_triangle2 (u v w : Vec) (huv : u.length = v.length)
    (hvw : v.length = w.length) :
    sqDist u w ≤ 2 * sqDist u v + 2 * sqDist v w := by
  induction u generalizing v w with
  | nil =>
    cases v with
    | nil =>
      cases w with
      | nil => simp [sqDist]
      | cons c w => simp at hvw
    | cons b v => simp at huv
  | cons a u ih =>
    cases v with
    | nil => simp at huv
    | cons b v =>
      cases w with
      | nil => simp at hvw
      | cons c w =>
        simp only [List.length_cons, Nat.add_right_cancel_iff] at huv hvw
        have h1 := ih v w huv hvw
        have h2 : (a - c) * (a - c) ≤
            2 * ((a - b) * (a - b)) + 2 * ((b - c) * (b - c)) := by
          nlinarith [sq_nonneg ((a - b) - (b - c))]
        simp only [sqDist, List.zipWith_cons_cons, List.sum_cons] at *
        linarith

theorem distLt_iff (u v : Vec) (eps : ℚ) :
    distLt u v eps = true ↔ 0 ≤ eps ∧ sqDist u v < eps * eps := by
  simp [distLt]

/-! ### The early-exit scan and the minimum-distance formulation -/

theorem coveredScan_eq_any (eps : ℚ) (lae : Vec) (L : List Vec) :
    coveredScan eps lae L = L.any (fun u => distLt u lae eps) := by
  induction L with
  | nil => simp [coveredScan]
  | cons u L ih =>
    simp only [coveredScan, List.any_cons]
    by_cases h : distLt u lae eps = true
    · simp [h]
    · simp only [Bool.not_eq_true] at h; simp [h, ih]

theorem coveredScan_iff (eps : ℚ) (lae : Vec) (L : List Vec) :
    coveredScan eps lae L = true ↔ ∃ u ∈ L, distLt u lae eps = true := by
  simp [coveredScan_eq_any, List.any_eq_true]

theorem minD_lt_iff (l : List ℚ) (b : ℚ) :
    (∃ m, minD l = some m ∧ m < b) ↔ ∃ x ∈ l, x < b := by
  induction l with
  | nil => simp [minD]
  | cons x xs ih =>
    cases h : minD xs with
    | none =>
      have hno : ¬ ∃ y ∈ xs, y < b := by
        rw [← ih]
        rintro ⟨m, hm, _⟩
        rw [h] at hm
        exact Option.noConfusion hm
      simp only [minD, h]
      constructor
      · rintro ⟨m, hm, hlt⟩
        simp only [Option.some.injEq] at hm
        exact ⟨x, List.mem_cons_self _ _, by rw [hm]; exact hlt⟩
      · rintro ⟨y, hy, hlt⟩
        rcases List.mem_cons.mp hy with rfl | hy
        · exact ⟨y, rfl, hlt⟩
        · exact absurd ⟨y, hy, hlt⟩ hno
    | some m =>
      simp only [minD, h]
      constructor
      · rintro ⟨m', hm', hlt⟩
        simp only [Option.some.injEq] at hm'
        rw [← hm'] at hlt
        rcases min_lt_iff.mp hlt with hx | hm2
        · exact ⟨x, List.mem_cons_self _ _, hx⟩
        · obtain ⟨y, hy, hylt⟩ := ih.mp ⟨m, h, hm2⟩
          exact ⟨y, List.mem_cons_of_mem _ hy, hylt⟩
      · rintro ⟨y, hy, hylt⟩
        refine ⟨min x m, rfl, ?_⟩
        rcases List.mem_cons.mp hy with rfl | hy
        · exact min_lt_iff.mpr (Or.inl hylt)
        · obtain ⟨m', hm', hm'lt⟩ := ih.mpr ⟨y, hy, hylt⟩
          rw [h] at hm'
          simp only [Option.some.injEq] at hm'
          rw [hm']
          exact min_lt_iff.mpr (Or.inr hm'lt)

theorem minLt_iff (eps : ℚ) (lae : Vec) (L : List Vec) :
    minLt eps lae L = true ↔
      0 ≤ eps ∧ ∃ u ∈ L, sqDist u lae < eps * eps := by
  unfold minLt
  cases h : minD (L.map (fun u => sqDist u lae)) with
  | none =>
    have hnil : L = [] := by
      cases L with
      | nil => rfl
      | cons u L' => simp [minD] at h
    subst hnil
    simp
  | some m =>
    simp only [Bool.and_eq_true, decide_eq_true_eq]
    constructor
    · rintro ⟨he, hlt⟩
      have := minD_lt_iff (L.map (fun u => sqDist u lae)) (eps * eps)
      obtain ⟨x, hx, hxlt⟩ := this.mp ⟨m, h, hlt⟩
      obtain ⟨u, hu, rfl⟩ := List.mem_map.mp hx
      exact ⟨he, u, hu, hxlt⟩
    · rintro ⟨he, u, hu, hlt⟩
      refine ⟨he, ?_⟩
      have := (minD_lt_iff (L.map (fun u => sqDist u lae)) (eps * eps)).mpr
        ⟨sqDist u lae, List.mem_map_of_mem _ hu, hlt⟩
      obtain ⟨m', hm', hm'lt⟩ := this
      rw [h] at hm'
      cases hm'
      exact hm'lt

theorem coveredScan_false_iff (eps : ℚ) (lae : Vec) (L : List Vec) :
    coveredScan eps lae L = false ↔
      ∀ u ∈ L, distLt u lae eps = false := by
  rw [coveredScan_eq_any]
  simp [List.any_eq_false]

theorem streamIds_cons (aid : String) (n : Nat) (lae : Vec)
    (s : List (String × Nat × Vec)) :
    streamIds ((aid, n, lae) :: s) = (aid, n) :: streamIds s := rfl

/-! ### Structural lemmas about `odSet` and the clustering loop -/

theorem odSet_fresh (m : Centers) (k : AtomId) (v : Vec)
    (h : k ∉ m.map Prod.fst) : odSet m k v = m ++ [(k, v)] := by
  induction m with
  | nil => rfl
  | cons p rest ih =>
    obtain ⟨k', u⟩ := p
    simp only [List.map_cons, List.mem_cons] at h
    push_neg at h
    simp only [odSet]
    rw [if_neg (fun he => h.1 he.symm)]
    simp [ih h.2]

theorem odSet_length_le (m : Centers) (k : AtomId) (v : Vec) :
    (odSet m k v).length ≤ m.length + 1 := by
  induction m with
  | nil => simp [odSet]
  | cons p rest ih =>
    obtain ⟨k', u⟩ := p
    simp only [odSet]
    by_cases h : k' = k
    · simp [h]
    · simp only [if_neg h, List.length_cons]
      omega

theorem odSet_keys_subset (m : Centers) (k : AtomId) (v : Vec) :
    ∀ k' ∈ (odSet m k v).map Prod.fst,
      k' ∈ m.map Prod.fst ∨ k' = k := by
  induction m with
  | nil => simp [odSet]
  | cons p rest ih =>
    obtain ⟨k0, u⟩ := p
    intro k' hk'
    simp only [odSet] at hk'
    by_cases h : k0 = k
    · rw [if_pos h] at hk'
      simp only [List.map_cons, List.mem_cons] at hk' ⊢
      tauto
    · rw [if_neg h] at hk'
      simp only [List.map_cons, List.mem_cons] at hk' ⊢
      rcases hk' with rfl | hk'
      · tauto
      · rcases ih k' hk' with h' | h' <;> tauto

theorem odSet_vecs_subset (m : Centers) (k : AtomId) (v : Vec) :
    ∀ u ∈ (odSet m k v).map Prod.snd,
      u ∈ m.map Prod.snd ∨ u = v := by
  induction m with
  | nil => simp [odSet]
  | cons p rest ih =>
    obtain ⟨k0, u0⟩ := p
    intro u hu
    simp only [odSet] at hu
    by_cases h : k0 = k
    · rw [if_pos h] at hu
      simp only [List.map_cons, List.mem_cons] at hu ⊢
      tauto
    · rw [if_neg h] at hu
      simp only [List.map_cons, List.mem_cons] at hu ⊢
      rcases hu with rfl | hu
      · tauto
      · rcases ih u hu with h' | h' <;> tauto

theorem clusterLoopA_append (eps : ℚ) (s1 s2 : List (String × Nat × Vec))
    (C : Centers) :
    clusterLoopA eps (s1 ++ s2) C =
      clusterLoopA eps s2 (clusterLoopA eps s1 C) := by
  induction s1 generalizing C with
  | nil => rfl
  | cons e s1 ih =>
    obtain ⟨aid, n, lae⟩ := e
    simp only [List.cons_append, clusterLoopA]
    by_cases h : coveredScan eps lae (C.map Prod.snd) = true
    · simp [h, ih]
    · simp only [Bool.not_eq_true] at h
      simp [h, ih]

theorem clusterLoopA_keys_subset (eps : ℚ) (s : List (String × Nat × Vec))
    (C : Centers) :
    ∀ k ∈ (clusterLoopA eps s C).map Prod.fst,
      k ∈ C.map Prod.fst ∨ k ∈ streamIds s := by
  induction s generalizing C with
  | nil => intro k hk; exact Or.inl hk
  | cons e s ih =>
    obtain ⟨aid, n, lae⟩ := e
    intro k hk
    rw [streamIds_cons]
    simp only [clusterLoopA] at hk
    by_cases h : coveredScan eps lae (C.map Prod.snd) = true
    · rw [if_pos h] at hk
      rcases ih C k hk with h' | h'
      · exact Or.inl h'
      · exact Or.inr (List.mem_cons_of_mem _ h')
    · rw [if_neg h] at hk
      rcases ih (odSet C (aid, n) lae) k hk with h' | h'
      · rcases odSet_keys_subset C (aid, n) lae k h' with h'' | h''
        · exact Or.inl h''
        · exact Or.inr (h'' ▸ List.mem_cons_self _ _)
      · exact Or.inr (List.mem_cons_of_mem _ h')

theorem clusterLoopA_vecs_subset (eps : ℚ) (s : List (String × Nat × Vec))
    (C : Centers) :
    ∀ u ∈ (clusterLoopA eps s C).map Prod.snd,
      u ∈ C.map Prod.snd ∨ u ∈ s.map (fun e => e.2.2) := by
  induction s generalizing C with
  | nil => intro u hu; exact Or.inl hu
  | cons e s ih =>
    obtain ⟨aid, n, lae⟩ := e
    intro u hu
    simp only [clusterLoopA] at hu
    simp only [List.map_cons, List.mem_cons]
    by_cases h : coveredScan eps lae (C.map Prod.snd) = true
    · rw [if_pos h] at hu
      rcases ih C u hu with h' | h'
      · exact Or.inl h'
      · exact Or.inr (Or.inr h')
    · rw [if_neg h] at hu
      rcases ih (odSet C (aid, n) lae) u hu with h' | h'
      · rcases odSet_vecs_subset C (aid, n) lae u h' with h'' | h''
        · exact Or.inl h''
        · exact Or.inr (Or.inl h'')
      · exact Or.inr (Or.inr h')

theorem clusterLoopA_grows (eps : ℚ) (s : List (String × Nat × Vec))
    (C : Centers) (hnd : (streamIds s).Nodup)
    (hdisj : ∀ i ∈ streamIds s, i ∉ C.map Prod.fst) :
    C <+: clusterLoopA eps s C := by
  induction s generalizing C with
  | nil => exact List.prefix_refl _
  | cons e s ih =>
    obtain ⟨aid, n, lae⟩ := e
    rw [streamIds_cons] at hnd hdisj
    have hnd' : (streamIds s).Nodup := (List.nodup_cons.mp hnd).2
    simp only [clusterLoopA]
    by_cases h : coveredScan eps lae (C.map Prod.snd) = true
    · rw [if_pos h]
      exact ih C hnd' (fun i hi => hdisj i (List.mem_cons_of_mem _ hi))
    · rw [if_neg h]
      have hfresh : (aid, n) ∉ C.map Prod.fst :=
        hdisj (aid, n) (List.mem_cons_self _ _)
      rw [odSet_fresh C (aid, n) lae hfresh]
      have hdisj' : ∀ i ∈ streamIds s,
          i ∉ (C ++ [((aid, n), lae)]).map Prod.fst := by
        intro i hi
        simp only [List.map_append, List.mem_append, List.map_cons,
          List.map_nil, List.mem_singleton]
        rintro (hiC | rfl)
        · exact hdisj i (List.mem_cons_of_mem _ hi) hiC
        · exact (List.nodup_cons.mp hnd).1 hi
      calc C <+: C ++ [((aid, n), lae)] := List.prefix_append _ _
        _ <+: _ := ih (C ++ [((aid, n), lae)]) hnd' hdisj'

theorem mem_vecs_mono {C D : Centers} (h : C <+: D) {u : Vec}
    (hu : u ∈ C.map Prod.snd) : u ∈ D.map Prod.snd :=
  (h.map Prod.snd).sublist.subset hu

theorem clusterLoopA_length_le (eps : ℚ) (s : List (String × Nat × Vec))
    (C : Centers) :
    (clusterLoopA eps s C).length ≤ C.length + s.length := by
  induction s generalizing C with
  | nil => simp [clusterLoopA]
  | cons e s ih =>
    obtain ⟨aid, n, lae⟩ := e
    simp only [clusterLoopA, List.length_cons]
    by_cases h : coveredScan eps lae (C.map Prod.snd) = true
    · rw [if_pos h]
      have := ih C
      omega
    · rw [if_neg h]
      have h1 := ih (odSet C (aid, n) lae)
      have h2 := odSet_length_le C (aid, n) lae
      omega

theorem distLt_zero (u v : Vec) : distLt u v 0 = false := by
  have := sqDist_nonneg u v
  simp only [distLt, mul_zero]
  simp only [Bool.and_eq_false_iff, decide_eq_false_iff_not, not_lt]
  right
  exact this

theorem clusterLoopA_length_eps0 (s : List (String × Nat × Vec))
    (C : Centers) (hnd : (streamIds s).Nodup)
    (hdisj : ∀ i ∈ streamIds s, i ∉ C.map Prod.fst) :
    (clusterLoopA 0 s C).length = C.length + s.length := by
  induction s generalizing C with
  | nil => simp [clusterLoopA]
  | cons e s ih =>
    obtain ⟨aid, n, lae⟩ := e
    rw [streamIds_cons] at hnd hdisj
    have hscan : coveredScan 0 lae (C.map Prod.snd) = false := by
      rw [coveredScan_false_iff]
      intro u _
      exact distLt_zero u lae
    have hfresh : (aid, n) ∉ C.map Prod.fst :=
      hdisj (aid, n) (List.mem_cons_self _ _)
    simp only [clusterLoopA, hscan, Bool.false_eq_true, if_false,
      odSet_fresh C (aid, n) lae hfresh, List.length_cons]
    have hdisj' : ∀ i ∈ streamIds s,
        i ∉ (C ++ [((aid, n), lae)]).map Prod.fst := by
      intro i hi
      simp only [List.map_append, List.mem_append, List.map_cons,
        List.map_nil, List.mem_singleton]
      rintro (hiC | rfl)
      · exact hdisj i (List.mem_cons_of_mem _ hi) hiC
      · exact (List.nodup_cons.mp hnd).1 hi
    rw [ih (C ++ [((aid, n), lae)]) (List.nodup_cons.mp hnd).2 hdisj']
    simp only [List.length_append, List.length_cons, List.length_nil]
    omega

theorem clusterLoopA_sep (eps : ℚ) (s : List (String × Nat × Vec))
    (C : Centers) (heps : 0 ≤ eps) (hnd : (streamIds s).Nodup)
    (hdisj : ∀ i ∈ streamIds s, i ∉ C.map Prod.fst)
    (hsep : (C.map Prod.snd).Pairwise
      (fun u w => ¬ sqDist u w < eps * eps)) :
    ((clusterLoopA eps s C).map Prod.snd).Pairwise
      (fun u w => ¬ sqDist u w < eps * eps) := by
  induction s generalizing C with
  | nil => exact hsep
  | cons e s ih =>
    obtain ⟨aid, n, lae⟩ := e
    rw [streamIds_cons] at hnd hdisj
    simp only [clusterLoopA]
    by_cases h : coveredScan eps lae (C.map Prod.snd) = true
    · rw [if_pos h]
      exact ih C (List.nodup_cons.mp hnd).2
        (fun i hi => hdisj i (List.mem_cons_of_mem _ hi)) hsep
    · rw [if_neg h]
      have hfresh : (aid, n) ∉ C.map Prod.fst :=
        hdisj (aid, n) (List.mem_cons_self _ _)
      rw [odSet_fresh C (aid, n) lae hfresh]
      have hall : ∀ u ∈ C.map Prod.snd, distLt u lae eps = false :=
        (coveredScan_false_iff eps lae (C.map Prod.snd)).mp
          (Bool.eq_false_iff.mpr h)
      have hsep' : ((C ++ [((aid, n), lae)]).map Prod.snd).Pairwise
          (fun u w => ¬ sqDist u w < eps * eps) := by
        rw [List.map_append, List.pairwise_append]
        refine ⟨hsep, by simp, ?_⟩
        intro u hu w hw
        simp only [List.map_cons, List.map_nil, List.mem_singleton] at hw
        intro hlt
        have hd : distLt u w eps = true := (distLt_iff _ _ _).mpr ⟨heps, hlt⟩
        rw [hw] at hd
        simp [hall u hu] at hd
      have hdisj' : ∀ i ∈ streamIds s,
          i ∉ (C ++ [((aid, n), lae)]).map Prod.fst := by
        intro i hi
        simp only [List.map_append, List.mem_append, List.map_cons,
          List.map_nil, List.mem_singleton]
        rintro (hiC | rfl)
        · exact hdisj i (List.mem_cons_of_mem _ hi) hiC
        · exact (List.nodup_cons.mp hnd).1 hi
      exact ih (C ++ [((aid, n), lae)]) (List.nodup_cons.mp hnd).2 hdisj' hsep'

theorem minLt_eq_coveredScan (eps : ℚ) (lae : Vec) (L : List Vec) :
    minLt eps lae L = coveredScan eps lae L := by
  rw [Bool.eq_iff_iff, minLt_iff, coveredScan_iff]
  constructor
  · rintro ⟨he, u, hu, hlt⟩
    exact ⟨u, hu, (distLt_iff _ _ _).mpr ⟨he, hlt⟩⟩
  · rintro ⟨u, hu, hd⟩
    obtain ⟨he, hlt⟩ := (distLt_iff _ _ _).mp hd
    exact ⟨he, u, hu, hlt⟩

theorem disj_extend {s : List (String × Nat × Vec)} {C : Centers}
    {aid : String} {n : Nat} (lae : Vec)
    (hnd : ((aid, n) :: streamIds s).Nodup)
    (hdisj : ∀ i ∈ (aid, n) :: streamIds s, i ∉ C.map Prod.fst) :
    ∀ i ∈ streamIds s, i ∉ (C ++ [((aid, n), lae)]).map Prod.fst := by
  intro i hi
  simp only [List.map_append, List.mem_append, List.map_cons, List.map_nil,
    List.mem_singleton]
  rintro (hiC | rfl)
  · exact hdisj i (List.mem_cons_of_mem _ hi) hiC
  · exact (List.nodup_cons.mp hnd).1 hi

theorem clusterLoopA_coverage (eps : ℚ) (s : List (String × Nat × Vec))
    (C : Centers) (hnd : (streamIds s).Nodup)
    (hdisj : ∀ i ∈ streamIds s, i ∉ C.map Prod.fst) :
    ∀ e ∈ s, ∃ u ∈ (clusterLoopA eps s C).map Prod.snd,
      u = e.2.2 ∨ distLt u e.2.2 eps = true := by
  induction s generalizing C with
  | nil => simp
  | cons e0 s ih =>
    obtain ⟨aid, n, lae⟩ := e0
    rw [streamIds_cons] at hnd hdisj
    have hnd' := (List.nodup_cons.mp hnd).2
    intro e he
    simp only [clusterLoopA]
    by_cases h : coveredScan eps lae (C.map Prod.snd) = true
    · rw [if_pos h]
      have hdisj2 : ∀ i ∈ streamIds s, i ∉ C.map Prod.fst :=
        fun i hi => hdisj i (List.mem_cons_of_mem _ hi)
      rcases List.mem_cons.mp he with rfl | he'
      · obtain ⟨u, hu, hd⟩ := (coveredScan_iff _ _ _).mp h
        exact ⟨u,
          mem_vecs_mono (clusterLoopA_grows eps s C hnd' hdisj2) hu,
          Or.inr hd⟩
      · exact ih C hnd' hdisj2 e he'
    · rw [if_neg h]
      have hfresh : (aid, n) ∉ C.map Prod.fst :=
        hdisj _ (List.mem_cons_self _ _)
      rw [odSet_fresh C _ _ hfresh]
      have hdisj' := disj_extend lae hnd hdisj
      rcases List.mem_cons.mp he with rfl | he'
      · refine ⟨lae, ?_, Or.inl rfl⟩
        have hmem : lae ∈ (C ++ [((aid, n), lae)]).map Prod.snd := by simp
        exact mem_vecs_mono
          (clusterLoopA_grows eps s _ hnd' hdisj') hmem
      · exact ih _ hnd' hdisj' e he'

/-! ### Bridge between the fallible phase-1 loop and its pure form -/

theorem clusterLoop_eq_ok (eps : ℚ) (s : List (String × Nat × Vec))
    (C : Centers) :
    clusterLoop eps (s.map (fun e => (e.1, e.2.1, some e.2.2))) C =
      .ok (clusterLoopA eps s C) := by
  induction s generalizing C with
  | nil => rfl
  | cons e s ih =>
    obtain ⟨aid, n, lae⟩ := e
    simp only [List.map_cons, clusterLoop, clusterLoopA]
    by_cases h : coveredScan eps lae (C.map Prod.snd) = true
    · rw [if_pos h, if_pos h]
      exact ih _
    · rw [if_neg h, if_neg h]
      exact ih _

theorem clusterLoop_error (eps : ℚ) (s : List (String × Nat × Option Vec))
    (C : Centers) (h : ∃ e ∈ s, e.2.2 = none) :
    clusterLoop eps s C = .error "LER requries SOAP to be generated first" := by
  induction s generalizing C with
  | nil => simp at h
  | cons e0 s ih =>
    obtain ⟨aid, n, olae⟩ := e0
    cases olae with
    | none => rfl
    | some lae =>
      obtain ⟨e, he, hnone⟩ := h
      rcases List.mem_cons.mp he with rfl | he'
      · simp at hnone
      · simp only [clusterLoop]
        by_cases hc : coveredScan eps lae (C.map Prod.snd) = true
        · rw [if_pos hc]
          exact ih _ ⟨e, he', hnone⟩
        · rw [if_neg hc]
          exact ih _ ⟨e, he', hnone⟩

/-! ### Lemmas about the assignment (classification) loop -/

theorem addToCluster_sndFlat (m : Clusters) (k i : AtomId) :
    ((addToCluster m k i).flatMap Prod.snd).Perm
      (i :: m.flatMap Prod.snd) := by
  induction m with
  | nil => simp [addToCluster]
  | cons p rest ih =>
    obtain ⟨k', b⟩ := p
    by_cases h : k' = k
    · simp only [addToCluster, if_pos h, List.flatMap_cons]
      have : b ++ [i] ++ rest.flatMap Prod.snd =
          b ++ (i :: rest.flatMap Prod.snd) := by simp
      rw [this]
      exact List.perm_middle
    · simp only [addToCluster, if_neg h, List.flatMap_cons]
      exact (ih.append_left b).trans List.perm_middle

theorem addToCluster_keys (m : Clusters) (k i : AtomId) :
    ∀ k' ∈ (addToCluster m k i).map Prod.fst,
      k' ∈ m.map Prod.fst ∨ k' = k := by
  induction m with
  | nil => simp [addToCluster]
  | cons p rest ih =>
    obtain ⟨k0, b⟩ := p
    intro k' hk'
    by_cases h : k0 = k
    · rw [addToCluster, if_pos h] at hk'
      simp only [List.map_cons, List.mem_cons] at hk' ⊢
      tauto
    · rw [addToCluster, if_neg h] at hk'
      simp only [List.map_cons, List.mem_cons] at hk' ⊢
      rcases hk' with rfl | hk'
      · tauto
      · rcases ih k' hk' with h' | h' <;> tauto

theorem assignLoop_spec (dim : Nat) (C : Centers) (nn : Vec → Nat)
    (s : List (String × Nat × Vec)) (m : Clusters)
    (hdim : ∀ e ∈ s, (e.2.2 : Vec).length = dim)
    (hnn : ∀ e ∈ s, nn e.2.2 < C.length) :
    ∃ m', assignLoop dim C nn s m = .ok m' ∧
      (m'.flatMap Prod.snd).Perm (m.flatMap Prod.snd ++ streamIds s) ∧
      ∀ k ∈ m'.map Prod.fst,
        k ∈ m.map Prod.fst ∨ k ∈ C.map Prod.fst := by
  induction s generalizing m with
  | nil =>
    refine ⟨m, rfl, by simp [streamIds], fun k hk => Or.inl hk⟩
  | cons e s ih =>
    obtain ⟨aid, n, lae⟩ := e
    have hlen : lae.length = dim := hdim _ (List.mem_cons_self _ _)
    have hidx : nn lae < (C.map Prod.fst).length := by
      simpa using hnn _ (List.mem_cons_self _ _)
    have hsome : (C.map Prod.fst)[nn lae]? =
        some ((C.map Prod.fst)[nn lae]) := List.getElem?_eq_getElem hidx
    set k := (C.map Prod.fst)[nn lae] with hk
    have hkC : k ∈ C.map Prod.fst := List.getElem_mem hidx
    simp only [assignLoop, if_pos hlen, hsome]
    obtain ⟨m', hok, hperm, hkeys⟩ := ih (addToCluster m k (aid, n))
      (fun e he => hdim e (List.mem_cons_of_mem _ he))
      (fun e he => hnn e (List.mem_cons_of_mem _ he))
    refine ⟨m', hok, ?_, ?_⟩
    · rw [streamIds_cons]
      have h1 := (addToCluster_sndFlat m k (aid, n)).append_right (streamIds s)
      exact hperm.trans (h1.trans List.perm_middle.symm)
    · intro k' hk'
      rcases hkeys k' hk' with h' | h'
      · rcases addToCluster_keys m k (aid, n) k' h' with h'' | h''
        · exact Or.inl h''
        · exact Or.inr (h'' ▸ hkC)
      · exact Or.inr h'

/-! ### Counting and summation helpers for the histogram -/

theorem countP_flatMap (q : AtomId → Bool) (m : Clusters) :
    (m.flatMap Prod.snd).countP q = (m.map (fun p => p.2.countP q)).sum := by
  induction m with
  | nil => simp
  | cons p rest ih => simp [List.countP_append, ih]

theorem countP_streamIds (s : List (String × Nat × Vec)) (aid : String) :
    (streamIds s).countP (fun i => i.1 == aid) = configCount s aid := by
  rw [streamIds, List.countP_map]
  rfl

theorem sum_natCast_map {α : Type} (l : List α) (f : α → ℕ) :
    (l.map (fun x => ((f x : ℕ) : ℚ))).sum = (((l.map f).sum : ℕ) : ℚ) := by
  induction l with
  | nil => simp
  | cons x l ih => simp [ih]

theorem sum_map_div (l : List ℚ) (t : ℚ) :
    (l.map (fun c => c / t)).sum = l.sum / t := by
  induction l with
  | nil => simp
  | cons x l ih => simp [ih, add_div]

theorem bucketCounts_sum (m : Clusters) (aid : String)
    (s : List (String × Nat × Vec))
    (hperm : (m.flatMap Prod.snd).Perm (streamIds s)) :
    (bucketCounts m aid).sum = (configCount s aid : ℚ) := by
  rw [bucketCounts, sum_natCast_map]
  congr 1
  rw [← countP_flatMap, hperm.countP_eq, countP_streamIds]

theorem lerResult_length (m : Clusters) (aid : String) :
    (lerResult m aid).length = m.length := by
  simp [lerResult, bucketCounts]

theorem clusterLoopRef_eq (eps : ℚ) (s : List (String × Nat × Vec))
    (C : Centers) : clusterLoopRef eps s C = clusterLoopA eps s C := by
  induction s generalizing C with
  | nil => rfl
  | cons e s ih =>
    obtain ⟨aid, n, lae⟩ := e
    simp only [clusterLoopRef, clusterLoopA, minLt_eq_coveredScan]
    by_cases h : coveredScan eps lae (C.map Prod.snd) = true
    · rw [if_pos h, if_pos h]
      exact ih _
    · rw [if_neg h, if_neg h]
      exact ih _

/-! ### The claims -/

/-- C9: the early-exit scan of lines 90–95 (break at the first registered
center within distance `eps`, register on loop fall-through) is equivalent to
the reference rule "register iff the minimum distance over all
currently-registered centers is ≥ eps": for every seed, threshold and stream
the two formulations produce identical ordered center maps. -/
theorem ler_breakScan_equals_minDistanceRule (seed : Vec) (eps : ℚ)
    (stream : List (String × Nat × Vec)) :
    buildCentersRef seed eps stream = buildCenters seed eps stream := by
  unfold buildCentersRef buildCenters
  exact clusterLoopRef_eq eps stream _

/-- C3: partition property of the assignment phase — when every stored vector
has the index dimension and the approximate-nearest-neighbour query returns an
in-range item index (which Annoy guarantees), the loop succeeds, the bucket
contents are a permutation of the stream's ids (so every `(aid, lae_num)` of
every configuration lands in exactly one bucket), bucket keys are center keys,
and for every configuration the bucket-count total equals its local-vector
count. -/
theorem ler_partition (dim : Nat) (C : Centers) (nn : Vec → Nat)
    (stream : List (String × Nat × Vec))
    (hdim : ∀ e ∈ stream, (e.2.2 : Vec).length = dim)
    (hnn : ∀ e ∈ stream, nn e.2.2 < C.length) :
    ∃ m, assignLoop dim C nn stream [] = .ok m ∧
      (m.flatMap Prod.snd).Perm (streamIds stream) ∧
      (∀ k ∈ m.map Prod.fst, k ∈ C.map Prod.fst) ∧
      ∀ aid, (m.map (fun p => p.2.countP (fun c => c.1 == aid))).sum =
        configCount stream aid := by
  obtain ⟨m, hok, hperm, hkeys⟩ := assignLoop_spec dim C nn stream [] hdim hnn
  have hperm' : (m.flatMap Prod.snd).Perm (streamIds stream) := by
    simpa using hperm
  refine ⟨m, hok, hperm', ?_, ?_⟩
  · intro k hk
    rcases hkeys k hk with h | h
    · simp at h
    · exact h
  · intro aid
    rw [← countP_flatMap, hperm'.countP_eq, countP_streamIds]

/-- Witness for C3 at a concrete two-center artifact and one-vector stream. -/
theorem ler_partition_witness :
    (∀ e ∈ [("a", 0, ([10] : Vec))], (e.2.2 : Vec).length = 1) ∧
    (∀ e ∈ [("a", 0, ([10] : Vec))],
      (fun _ : Vec => 1) e.2.2 <
        ([(("0", 0), ([0] : Vec)), (("a", 0), [10])] : Centers).length) ∧
    ∃ m, assignLoop 1 [(("0", 0), [0]), (("a", 0), [10])] (fun _ => 1)
        [("a", 0, [10])] [] = .ok m ∧
      (m.flatMap Prod.snd).Perm (streamIds [("a", 0, [10])]) ∧
      (∀ k ∈ m.map Prod.fst,
        k ∈ ([(("0", 0), ([0] : Vec)), (("a", 0), [10])] : Centers).map
          Prod.fst) ∧
      ∀ aid, (m.map (fun p => p.2.countP (fun c => c.1 == aid))).sum =
        configCount [("a", 0, [10])] aid :=
  ⟨by decide, by decide,
    ler_partition 1 [(("0", 0), [0]), (("a", 0), [10])] (fun _ => 1)
      [("a", 0, [10])] (by decide) (by decide)⟩

/-- C4: normalization — for a configuration with at least one local vector,
the histogram entries are genuine rational numbers (no zero-denominator
division occurs) and sum to exactly 1. -/
theorem ler_normalization (dim : Nat) (C : Centers) (nn : Vec → Nat)
    (stream : List (String × Nat × Vec)) (aid : String)
    (hdim : ∀ e ∈ stream, (e.2.2 : Vec).length = dim)
    (hnn : ∀ e ∈ stream, nn e.2.2 < C.length)
    (hpos : 0 < configCount stream aid) :
    ∃ (m : Clusters) (vals : List ℚ), assignLoop dim C nn stream [] = .ok m ∧
      lerResult m aid = vals.map some ∧ vals.sum = 1 := by
  obtain ⟨m, hok, hperm, _⟩ := assignLoop_spec dim C nn stream [] hdim hnn
  have hperm' : (m.flatMap Prod.snd).Perm (streamIds stream) := by
    simpa using hperm
  have hsum : (bucketCounts m aid).sum = (configCount stream aid : ℚ) :=
    bucketCounts_sum m aid stream hperm'
  have hne : (bucketCounts m aid).sum ≠ 0 := by
    rw [hsum]
    exact_mod_cast Nat.pos_iff_ne_zero.mp hpos
  refine ⟨m, (bucketCounts m aid).map
    (fun c => c / (bucketCounts m aid).sum), hok, ?_, ?_⟩
  · rw [lerResult, List.map_map]
    refine List.map_congr_left ?_
    intro c _
    simp [npDiv, hne]
  · rw [sum_map_div]
    exact div_self hne

/-- Witness for C4 at the same concrete artifact. -/
theorem ler_normalization_witness :
    (∀ e ∈ [("a", 0, ([10] : Vec))], (e.2.2 : Vec).length = 1) ∧
    (∀ e ∈ [("a", 0, ([10] : Vec))],
      (fun _ : Vec => 1) e.2.2 <
        ([(("0", 0), ([0] : Vec)), (("a", 0), [10])] : Centers).length) ∧
    0 < configCount [("a", 0, ([10] : Vec))] "a" ∧
    ∃ (m : Clusters) (vals : List ℚ),
      assignLoop 1 [(("0", 0), [0]), (("a", 0), [10])] (fun _ => 1)
        [("a", 0, [10])] [] = .ok m ∧
      lerResult m "a" = vals.map some ∧ vals.sum = 1 :=
  ⟨by decide, by decide, by decide,
    ler_normalization 1 [(("0", 0), [0]), (("a", 0), [10])] (fun _ => 1)
      [("a", 0, [10])] "a" (by decide) (by decide) (by decide)⟩

/-- C2 counterexample: with seed `[0]`, `eps = 1` and the single-vector
stream `[("a", 0, [10])]`, the clustering phase registers two centers; the
exact nearest neighbour of the stream's only vector is center 1 (itself, as
the third conjunct shows), so the assignment phase fills one bucket only, and
the histogram of configuration `"a"` (which has one vector) has length 1,
not 2: its length is `len(U['clusters'])`, not the center count. -/
theorem ler_histogram_length_cex :
    numCenters [0] 1 [("a", 0, [10])] = 2 ∧
    configCount [("a", 0, [10])] "a" = 1 ∧
    sqDist [(10 : ℚ)] [10] < sqDist [(0 : ℚ)] [10] ∧
    assignLoop 1 (buildCenters [0] 1 [("a", 0, [10])]) (fun _ => 1)
      [("a", 0, [10])] [] = .ok [(("a", 0), [("a", 0)])] ∧
    (lerResult [(("a", 0), [("a", 0)])] "a").length = 1 := by
  refine ⟨?_, by decide, ?_, ?_, ?_⟩
  · norm_num [numCenters, buildCenters, clusterLoopA, coveredScan, distLt,
      sqDist, odSet]
    decide
  · norm_num [sqDist]
  · norm_num [assignLoop, buildCenters, clusterLoopA, coveredScan, distLt,
      sqDist, odSet, addToCluster]
    rw [if_neg (by decide : ¬ ("0" : String) = "a")]
    rfl
  · decide

/-- C2 (amended): for every successfully built artifact and every
configuration with at least one vector, the histogram's length equals the
number of non-empty buckets `len(U['clusters'])` (which can be smaller than
the center count), and entry `i` is the count of that configuration's vectors
assigned to the `i`-th bucket in bucket-creation (first-assignment) order,
divided by that configuration's total vector count. -/
theorem ler_histogram_bucket_form (dim : Nat) (C : Centers) (nn : Vec → Nat)
    (stream : List (String × Nat × Vec)) (aid : String)
    (hdim : ∀ e ∈ stream, (e.2.2 : Vec).length = dim)
    (hnn : ∀ e ∈ stream, nn e.2.2 < C.length)
    (hpos : 0 < configCount stream aid) :
    ∃ m, assignLoop dim C nn stream [] = .ok m ∧
      (lerResult m aid).length = m.length ∧
      lerResult m aid = m.map (fun p =>
        some (((p.2.countP (fun c => c.1 == aid) : ℕ) : ℚ) /
          (configCount stream aid : ℚ))) := by
  obtain ⟨m, hok, hperm0, _⟩ := assignLoop_spec dim C nn stream [] hdim hnn
  have hperm : (m.flatMap Prod.snd).Perm (streamIds stream) := by
    simpa using hperm0
  have hsum := bucketCounts_sum m aid stream hperm
  have hne : (bucketCounts m aid).sum ≠ 0 := by
    rw [hsum]
    exact_mod_cast Nat.pos_iff_ne_zero.mp hpos
  refine ⟨m, hok, lerResult_length m aid, ?_⟩
  have hform : lerResult m aid = (bucketCounts m aid).map
      (fun c => some (c / (configCount stream aid : ℚ))) := by
    rw [lerResult]
    refine List.map_congr_left ?_
    intro c _
    rw [npDiv, if_neg hne, hsum]
  rw [hform, bucketCounts, List.map_map]
  rfl

/-- Witness for the amended C2 at the concrete C2-counterexample artifact. -/
theorem ler_histogram_bucket_form_witness :
    (∀ e ∈ [("a", 0, ([10] : Vec))], (e.2.2 : Vec).length = 1) ∧
    (∀ e ∈ [("a", 0, ([10] : Vec))],
      (fun _ : Vec => 1) e.2.2 <
        ([(("0", 0), ([0] : Vec)), (("a", 0), [10])] : Centers).length) ∧
    0 < configCount [("a", 0, ([10] : Vec))] "a" ∧
    ∃ m, assignLoop 1 [(("0", 0), [0]), (("a", 0), [10])] (fun _ => 1)
        [("a", 0, [10])] [] = .ok m ∧
      (lerResult m "a").length = m.length ∧
      lerResult m "a" = m.map (fun p =>
        some (((p.2.countP (fun c => c.1 == "a") : ℕ) : ℚ) /
          (configCount [("a", 0, ([10] : Vec))] "a" : ℚ))) :=
  ⟨by decide, by decide, by decide,
    ler_histogram_bucket_form 1 [(("0", 0), [0]), (("a", 0), [10])]
      (fun _ => 1) [("a", 0, [10])] "a" (by decide) (by decide) (by decide)⟩

/-- C7 counterexample: at the one-bucket artifact of the C2 scenario, asking
for the histogram of configuration `"b"`, which has zero local vectors, makes
line 127 divide by the zero sum: the result is the length-1 vector whose
entry is the invalid division value (NaN, modelled `none`) — a numeric
division failure, not an absent/zero-length sentinel, and not an
exception. -/
theorem ler_empty_config_cex :
    (bucketCounts [(("a", 0), [("a", 0)])] "b").sum = 0 ∧
    lerResult [(("a", 0), [("a", 0)])] "b" = [none] ∧
    lerResult [(("a", 0), [("a", 0)])] "b" ≠ [] := by
  refine ⟨?_, ?_, ?_⟩
  · simp [bucketCounts]
  · simp [lerResult, bucketCounts, npDiv]
  · simp [lerResult, bucketCounts]

/-- C7 (amended): when the requested configuration has zero local vectors the
code neither raises nor returns a sentinel: line 127 performs the division
with a zero denominator and the histogram is `len(U['clusters'])` copies of
the invalid division value (NaN, modelled `none`). -/
theorem ler_empty_config_nan (dim : Nat) (C : Centers) (nn : Vec → Nat)
    (stream : List (String × Nat × Vec)) (aid : String)
    (hdim : ∀ e ∈ stream, (e.2.2 : Vec).length = dim)
    (hnn : ∀ e ∈ stream, nn e.2.2 < C.length)
    (hzero : configCount stream aid = 0) :
    ∃ m, assignLoop dim C nn stream [] = .ok m ∧
      lerResult m aid = List.replicate m.length none := by
  obtain ⟨m, hok, hperm0, _⟩ := assignLoop_spec dim C nn stream [] hdim hnn
  have hperm : (m.flatMap Prod.snd).Perm (streamIds stream) := by
    simpa using hperm0
  have hsum : (bucketCounts m aid).sum = 0 := by
    rw [bucketCounts_sum m aid stream hperm, hzero]
    norm_num
  refine ⟨m, hok, ?_⟩
  have hlen : (lerResult m aid).length = m.length := lerResult_length m aid
  rw [List.eq_replicate_iff]
  refine ⟨hlen, ?_⟩
  intro x hx
  rw [lerResult] at hx
  obtain ⟨c, _, hc⟩ := List.mem_map.mp hx
  rw [← hc, npDiv, if_pos hsum]

/-- Witness for the amended C7: a stream whose only configuration is `"a"`,
queried for the vectorless configuration `"b"`. -/
theorem ler_empty_config_nan_witness :
    (∀ e ∈ [("a", 0, ([10] : Vec))], (e.2.2 : Vec).length = 1) ∧
    (∀ e ∈ [("a", 0, ([10] : Vec))],
      (fun _ : Vec => 1) e.2.2 <
        ([(("0", 0), ([0] : Vec)), (("a", 0), [10])] : Centers).length) ∧
    configCount [("a", 0, ([10] : Vec))] "b" = 0 ∧
    ∃ m, assignLoop 1 [(("0", 0), [0]), (("a", 0), [10])] (fun _ => 1)
        [("a", 0, [10])] [] = .ok m ∧
      lerResult m "b" = List.replicate m.length none :=
  ⟨by decide, by decide, by decide,
    ler_empty_config_nan 1 [(("0", 0), [0]), (("a", 0), [10])] (fun _ => 1)
      [("a", 0, [10])] "b" (by decide) (by decide) (by decide)⟩

/-- C6: if any local-environment vector of the stream is absent (`None`) on a
cache miss, `ler` raises the fatal `RuntimeError` of line 89, which
propagates to the caller, and the store is left exactly as it was (nothing is
written); moreover, in every run of `ler` a key's artifact after the call is
either what was already cached or the result of a fully successful build —
never a partial artifact. -/
theorem ler_missing_descriptor (st : Store) (k : LerKey) (seed : Vec)
    (stream : List (String × Nat × Option Vec)) (nn : Vec → Nat)
    (aid : String) (hmiss : st k = none)
    (hnone : ∃ e ∈ stream, e.2.2 = none) :
    ler st k seed stream nn aid =
      (.error "LER requries SOAP to be generated first", st) ∧
    ∀ (st' : Store) (k' : LerKey) (seed' : Vec)
      (stream' : List (String × Nat × Option Vec)) (nn' : Vec → Nat)
      (aid' : String) (U : Artifact),
      (ler st' k' seed' stream' nn' aid').2 k' = some U →
        st' k' = some U ∨ lerBuild seed' k'.eps stream' nn' = .ok U := by
  constructor
  · have hb : lerBuild seed k.eps stream nn =
        .error "LER requries SOAP to be generated first" := by
      unfold lerBuild
      rw [clusterLoop_error k.eps stream _ hnone]
      rfl
    unfold ler
    rw [hmiss, hb]
  · intro st' k' seed' stream' nn' aid' U hU
    unfold ler at hU
    cases hst : st' k' with
    | some V =>
      rw [hst] at hU
      dsimp only at hU
      exact Or.inl (hst.symm.trans hU)
    | none =>
      rw [hst] at hU
      cases hb : lerBuild seed' k'.eps stream' nn' with
      | error e =>
        rw [hb] at hU
        dsimp only at hU
        rw [hst] at hU
        exact absurd hU (by simp)
      | ok V =>
        rw [hb] at hU
        dsimp only at hU
        rw [storePut] at hU
        simp at hU
        exact Or.inr (by rw [hU])

/-- Witness for C6: a one-entry stream whose stored vector is `None`, on an
empty store. -/
theorem ler_missing_descriptor_witness :
    ((fun _ : LerKey => (none : Option Artifact))
        ⟨"c", 1, "soap", none, "euclidean", 10, -1, []⟩ = none) ∧
    (∃ e ∈ [("a", 0, (none : Option Vec))], e.2.2 = none) ∧
    ler (fun _ => none) ⟨"c", 1, "soap", none, "euclidean", 10, -1, []⟩ [0]
        [("a", 0, none)] (fun _ => 0) "a" =
      (.error "LER requries SOAP to be generated first", fun _ => none) :=
  ⟨rfl, ⟨("a", 0, none), by simp, rfl⟩,
    (ler_missing_descriptor (fun _ => none)
      ⟨"c", 1, "soap", none, "euclidean", 10, -1, []⟩ [0]
      [("a", 0, none)] (fun _ => 0) "a" rfl
      ⟨("a", 0, none), by simp, rfl⟩).1⟩

/-- C8: the temporary index file `'tmp'` is *not* released on every exit
path. `os.remove('tmp')` (line 116) runs only when the assignment loop
completes: at a stream containing a vector whose dimension differs from the
index dimension (it passes the phase-1 distance check by numpy broadcasting
but makes `get_nns_by_vector` raise after `a.save('tmp')`), the sequence
raises and the file persists; on a well-formed stream it completes and the
file is removed. -/
theorem ler_tmpfile_leak_on_error :
    classifyWithTmp 2 [(("0", 0), [0, 0])] (fun _ => 0) [("a", 0, [1])] =
      (.error "Vector has wrong length", true) ∧
    classifyWithTmp 1 [(("0", 0), [0])] (fun _ => 0) [("a", 0, [5])] =
      (.ok [(("0", 0), [("a", 0)])], false) :=
  ⟨rfl, rfl⟩

/-- C10: the cache key of lines 71–72 and 118–119 omits the seed: after a
first invocation on a cache miss builds and stores an artifact `U`, any
second invocation with the same key retrieves `U` no matter which seed
(or stream, or query function) it is given, and its histogram — that of
`U` — is independent of its own seed argument. -/
theorem ler_cacheKey_omits_seed (st : Store) (k : LerKey) (s1 : Vec)
    (stream1 : List (String × Nat × Option Vec)) (nn1 : Vec → Nat)
    (aid1 : String) (U : Artifact) (hmiss : st k = none)
    (hok : lerBuild s1 k.eps stream1 nn1 = .ok U) :
    (ler st k s1 stream1 nn1 aid1).2 k = some U ∧
    ∀ (s2 s3 : Vec) (stream2 stream3 : List (String × Nat × Option Vec))
      (nn2 nn3 : Vec → Nat) (aid2 : String),
      ler (ler st k s1 stream1 nn1 aid1).2 k s2 stream2 nn2 aid2 =
        (.ok (lerResult U.clusters aid2), (ler st k s1 stream1 nn1 aid1).2) ∧
      ler (ler st k s1 stream1 nn1 aid1).2 k s2 stream2 nn2 aid2 =
        ler (ler st k s1 stream1 nn1 aid1).2 k s3 stream3 nn3 aid2 := by
  have hrun : ler st k s1 stream1 nn1 aid1 =
      (.ok (lerResult U.clusters aid1), storePut st k U) := by
    unfold ler
    rw [hmiss, hok]
  have hst1 : (ler st k s1 stream1 nn1 aid1).2 k = some U := by
    rw [hrun]
    dsimp only
    rw [storePut]
    simp
  refine ⟨hst1, ?_⟩
  intro s2 s3 stream2 stream3 nn2 nn3 aid2
  have hhit : ∀ (s : Vec) (stream : List (String × Nat × Option Vec))
      (nn : Vec → Nat),
      ler (ler st k s1 stream1 nn1 aid1).2 k s stream nn aid2 =
        (.ok (lerResult U.clusters aid2),
          (ler st k s1 stream1 nn1 aid1).2) := by
    intro s stream nn
    conv_lhs => rw [ler]
    rw [hst1]
  exact ⟨hhit s2 stream2 nn2,
    (hhit s2 stream2 nn2).trans (hhit s3 stream3 nn3).symm⟩

/-- Witness for C10: an empty store, an empty stream (whose build trivially
succeeds with the seed-only artifact), then a cache hit. -/
theorem ler_cacheKey_omits_seed_witness :
    ((fun _ : LerKey => (none : Option Artifact))
        ⟨"c", 1, "soap", none, "euclidean", 10, -1, []⟩ = none) ∧
    (lerBuild [0]
        (⟨"c", 1, "soap", none, "euclidean", 10, -1, []⟩ : LerKey).eps
        [] (fun _ => 0) = .ok ⟨[(("0", 0), [0])], []⟩) ∧
    ((ler (fun _ => none) ⟨"c", 1, "soap", none, "euclidean", 10, -1, []⟩
        [0] [] (fun _ => 0) "a").2
        ⟨"c", 1, "soap", none, "euclidean", 10, -1, []⟩ =
      some ⟨[(("0", 0), [0])], []⟩) :=
  ⟨rfl, rfl,
    (ler_cacheKey_omits_seed (fun _ => none)
      ⟨"c", 1, "soap", none, "euclidean", 10, -1, []⟩ [0] [] (fun _ => 0)
      "a" ⟨[(("0", 0), [0])], []⟩ rfl rfl).1⟩

/-- C1: greedy online clustering. For every seed, threshold and stream (with
the pairwise-distinct ids a real collection traversal produces), the center
map's first entry is the seed keyed `('0', 0)`; the centers registered while
processing a prefix persist, in traversal order, into the map for the whole
stream; a vector is registered (keyed by its own id) when it reaches the head
of the remaining stream iff its distance to every previously-registered
center is `≥ eps` — equivalently, iff no registered center is within `eps` —
and a covered vector adds no center. -/
theorem ler_greedy_clustering (seed : Vec) (eps : ℚ)
    (xs ys : List (String × Nat × Vec)) (a : String) (n : Nat) (v : Vec)
    (hfresh : FreshIds (xs ++ (a, n, v) :: ys)) :
    (buildCenters seed eps (xs ++ (a, n, v) :: ys)).head? =
      some ((("0", 0) : AtomId), seed) ∧
    buildCenters seed eps xs <+:
      buildCenters seed eps (xs ++ (a, n, v) :: ys) ∧
    (buildCenters seed eps (xs ++ [(a, n, v)]) =
      if ∀ u ∈ (buildCenters seed eps xs).map Prod.snd,
          distLt u v eps = false
        then buildCenters seed eps xs ++ [((a, n), v)]
        else buildCenters seed eps xs) ∧
    ((∃ w, ((a, n), w) ∈ buildCenters seed eps (xs ++ (a, n, v) :: ys)) ↔
      ∀ u ∈ (buildCenters seed eps xs).map Prod.snd,
        distLt u v eps = false) := by
  obtain ⟨hnd0, hseed0⟩ := hfresh
  have hids : streamIds (xs ++ (a, n, v) :: ys) =
      streamIds xs ++ (a, n) :: streamIds ys := by
    simp [streamIds]
  have hnd : (streamIds xs ++ (a, n) :: streamIds ys).Nodup := by
    rw [← hids]; exact hnd0
  have hseed1 : ("0", 0) ∉ streamIds xs ++ (a, n) :: streamIds ys := by
    rw [← hids]; exact hseed0
  obtain ⟨hnd_xs, hnd_mid, hdj⟩ := List.nodup_append.mp hnd
  have hhead_mid : (a, n) ∉ streamIds ys := (List.nodup_cons.mp hnd_mid).1
  have hnd_ys : (streamIds ys).Nodup := (List.nodup_cons.mp hnd_mid).2
  have hseedxs : ("0", 0) ∉ streamIds xs :=
    fun h => hseed1 (List.mem_append.mpr (Or.inl h))
  have hseedmid : ("0", 0) ∉ (a, n) :: streamIds ys :=
    fun h => hseed1 (List.mem_append.mpr (Or.inr h))
  -- keys registered while processing `xs` are the seed key or ids of `xs`
  have hkeys_xs : ∀ k ∈ (buildCenters seed eps xs).map Prod.fst,
      k = ("0", 0) ∨ k ∈ streamIds xs := by
    intro k hk
    rcases clusterLoopA_keys_subset eps xs _ k hk with h | h
    · left; simpa using h
    · right; exact h
  -- the id (a, n) is never a key of the prefix run
  have hfreshk : (a, n) ∉ (buildCenters seed eps xs).map Prod.fst := by
    intro hk
    rcases hkeys_xs _ hk with he | hxsmem
    · exact hseedmid (he ▸ List.mem_cons_self _ _)
    · exact hdj hxsmem (List.mem_cons_self _ _)
  -- the full run processes `(a, n, v) :: ys` starting from the prefix run
  have hsplit : buildCenters seed eps (xs ++ (a, n, v) :: ys) =
      clusterLoopA eps ((a, n, v) :: ys) (buildCenters seed eps xs) := by
    rw [buildCenters, clusterLoopA_append, ← buildCenters]
  have hdisj_mid : ∀ i ∈ streamIds ((a, n, v) :: ys),
      i ∉ (buildCenters seed eps xs).map Prod.fst := by
    intro i hi hk
    rw [streamIds_cons] at hi
    rcases hkeys_xs i hk with rfl | hxsmem
    · exact hseedmid hi
    · exact hdj hxsmem hi
  have hnd_mid' : (streamIds ((a, n, v) :: ys)).Nodup := by
    rw [streamIds_cons]; exact hnd_mid
  -- conjunct 1: the head is the seed entry
  have hnd_full : (streamIds (xs ++ (a, n, v) :: ys)).Nodup := by
    rw [hids]; exact hnd
  have hdisj_full : ∀ i ∈ streamIds (xs ++ (a, n, v) :: ys),
      i ∉ ([(("0", 0), seed)] : Centers).map Prod.fst := by
    intro i hi
    rw [hids] at hi
    simp only [List.map_cons, List.map_nil, List.mem_singleton]
    intro he
    subst he
    exact hseed1 hi
  obtain ⟨t, ht⟩ :=
    clusterLoopA_grows eps (xs ++ (a, n, v) :: ys) [(("0", 0), seed)]
      hnd_full hdisj_full
  have hhead : (buildCenters seed eps (xs ++ (a, n, v) :: ys)).head? =
      some ((("0", 0) : AtomId), seed) := by
    rw [buildCenters, ← ht]
    rfl
  -- conjunct 2: the prefix run persists
  have hpre_xs : buildCenters seed eps xs <+:
      buildCenters seed eps (xs ++ (a, n, v) :: ys) := by
    rw [hsplit]
    exact clusterLoopA_grows eps _ _ hnd_mid' hdisj_mid
  -- conjunct 3: the one-step registration rule
  have hstep : buildCenters seed eps (xs ++ [(a, n, v)]) =
      if ∀ u ∈ (buildCenters seed eps xs).map Prod.snd,
          distLt u v eps = false
        then buildCenters seed eps xs ++ [((a, n), v)]
        else buildCenters seed eps xs := by
    rw [buildCenters, clusterLoopA_append, ← buildCenters]
    by_cases hcond : ∀ u ∈ (buildCenters seed eps xs).map Prod.snd,
        distLt u v eps = false
    · rw [if_pos hcond]
      have hscan : coveredScan eps v
          ((buildCenters seed eps xs).map Prod.snd) = false :=
        (coveredScan_false_iff _ _ _).mpr hcond
      simp only [clusterLoopA, hscan, Bool.false_eq_true, if_false]
      rw [odSet_fresh _ _ _ hfreshk]
    · rw [if_neg hcond]
      have hscan : coveredScan eps v
          ((buildCenters seed eps xs).map Prod.snd) = true := by
        by_contra hs
        exact hcond
          ((coveredScan_false_iff _ _ _).mp (Bool.eq_false_iff.mpr hs))
      simp only [clusterLoopA, hscan, if_true]
  -- conjunct 4: registration iff uncovered at the moment of processing
  have hiff : (∃ w, ((a, n), w) ∈
        buildCenters seed eps (xs ++ (a, n, v) :: ys)) ↔
      ∀ u ∈ (buildCenters seed eps xs).map Prod.snd,
        distLt u v eps = false := by
    constructor
    · rintro ⟨w, hw⟩
      by_contra hcond
      have hscan : coveredScan eps v
          ((buildCenters seed eps xs).map Prod.snd) = true := by
        by_contra hs
        exact hcond
          ((coveredScan_false_iff _ _ _).mp (Bool.eq_false_iff.mpr hs))
      have hfull : buildCenters seed eps (xs ++ (a, n, v) :: ys) =
          clusterLoopA eps ys (buildCenters seed eps xs) := by
        rw [hsplit]
        simp only [clusterLoopA, hscan, if_true]
      have hmemk : (a, n) ∈
          (buildCenters seed eps (xs ++ (a, n, v) :: ys)).map Prod.fst :=
        List.mem_map_of_mem Prod.fst hw
      rw [hfull] at hmemk
      rcases clusterLoopA_keys_subset eps ys _ (a, n) hmemk with hk | hk
      · exact hfreshk hk
      · exact hhead_mid hk
    · intro hcond
      have hscan : coveredScan eps v
          ((buildCenters seed eps xs).map Prod.snd) = false :=
        (coveredScan_false_iff _ _ _).mpr hcond
      have hfull : buildCenters seed eps (xs ++ (a, n, v) :: ys) =
          clusterLoopA eps ys
            (buildCenters seed eps xs ++ [((a, n), v)]) := by
        rw [hsplit]
        simp only [clusterLoopA, hscan, Bool.false_eq_true, if_false]
        rw [odSet_fresh _ _ _ hfreshk]
      refine ⟨v, ?_⟩
      rw [hfull]
      have hdisj_ys : ∀ i ∈ streamIds ys,
          i ∉ (buildCenters seed eps xs ++ [((a, n), v)]).map Prod.fst := by
        intro i hi
        simp only [List.map_append, List.mem_append, List.map_cons,
          List.map_nil, List.mem_singleton]
        rintro (hk | rfl)
        · exact hdisj_mid i
            (by rw [streamIds_cons]; exact List.mem_cons_of_mem _ hi) hk
        · exact hhead_mid hi
      have hpre := clusterLoopA_grows eps ys
        (buildCenters seed eps xs ++ [((a, n), v)]) hnd_ys hdisj_ys
      exact hpre.sublist.subset (by simp)
  exact ⟨hhead, hpre_xs, hstep, hiff⟩

/-- Witness for C1: seed `[0]`, `eps = 1`, prefix `[("a", 0, [5])]`, the
probed triple `("b", 0, [6])` (distance 1 ≥ eps from the registered center
`[5]`, distance 6 from the seed, hence registered), empty suffix. -/
theorem ler_greedy_clustering_witness :
    FreshIds [("a", 0, ([5] : Vec)), ("b", 0, [6])] ∧
    ((buildCenters [0] 1 ([("a", 0, [5])] ++ ("b", 0, ([6] : Vec)) :: [])).head? =
      some ((("0", 0) : AtomId), [0]) ∧
    buildCenters [0] 1 [("a", 0, [5])] <+:
      buildCenters [0] 1 ([("a", 0, [5])] ++ ("b", 0, ([6] : Vec)) :: []) ∧
    (buildCenters [0] 1 ([("a", 0, [5])] ++ [("b", 0, [6])]) =
      if ∀ u ∈ (buildCenters [0] 1 [("a", 0, [5])]).map Prod.snd,
          distLt u [6] 1 = false
        then buildCenters [0] 1 [("a", 0, [5])] ++ [(("b", 0), [6])]
        else buildCenters [0] 1 [("a", 0, [5])]) ∧
    ((∃ w, (("b", 0), w) ∈
        buildCenters [0] 1 ([("a", 0, [5])] ++ ("b", 0, ([6] : Vec)) :: [])) ↔
      ∀ u ∈ (buildCenters [0] 1 [("a", 0, [5])]).map Prod.snd,
        distLt u [6] 1 = false)) :=
  ⟨by constructor <;> decide,
    ler_greedy_clustering [0] 1 [("a", 0, [5])] [] "b" 0 [6]
      (by constructor <;> decide)⟩

/-- C5 counterexample: with seed `(0,0)` and the three-vector stream
`cex5stream`, the thresholds satisfy `eps1 = 1 ≤ 3/2 = eps2`, yet the greedy
pass registers 2 centers at `eps1` and 3 centers at `eps2`: at `eps1` the
vector `(5/4, 0)` becomes a center and absorbs the two later vectors, while
at `eps2` it is absorbed by the seed and the two later vectors each become
centers. Increasing `eps` increased the center count. -/
theorem ler_threshold_monotone_cex :
    (1 : ℚ) ≤ 3 / 2 ∧
    numCenters [0, 0] 1 cex5stream = 2 ∧
    numCenters [0, 0] (3 / 2) cex5stream = 3 := by
  refine ⟨by norm_num, ?_, ?_⟩
  · norm_num [numCenters, buildCenters, cex5stream, clusterLoopA,
      coveredScan, distLt, sqDist, odSet]
    decide
  · norm_num [numCenters, buildCenters, cex5stream, clusterLoopA,
      coveredScan, distLt, sqDist, odSet]

/-- C5 (amended): the claimed monotonicity `eps1 ≤ eps2 ⇒
count(eps2) ≤ count(eps1)` is false (see the counterexample); it does hold
whenever the larger threshold is at least twice the smaller: holding seed,
traversal order and metric fixed, if `0 ≤ eps1` and `2·eps1 ≤ eps2` then the
greedy pass at `eps2` produces at most as many centers as at `eps1`. -/
theorem ler_threshold_monotone_doubled (seed : Vec) (eps1 eps2 : ℚ)
    (stream : List (String × Nat × Vec)) (hfresh : FreshIds stream)
    (h1 : 0 ≤ eps1) (h2 : 2 * eps1 ≤ eps2)
    (hdim : ∀ e ∈ stream, (e.2.2 : Vec).length = seed.length) :
    numCenters seed eps2 stream ≤ numCenters seed eps1 stream := by
  obtain ⟨hnd, hseed⟩ := hfresh
  have hdisj : ∀ i ∈ streamIds stream,
      i ∉ ([(("0", 0), seed)] : Centers).map Prod.fst := by
    intro i hi
    simp only [List.map_cons, List.map_nil, List.mem_singleton]
    rintro rfl
    exact hseed hi
  rcases eq_or_lt_of_le h1 with heq | hpos
  · have hmax := clusterLoopA_length_le eps2 stream [(("0", 0), seed)]
    have hfull := clusterLoopA_length_eps0 stream [(("0", 0), seed)] hnd hdisj
    rw [numCenters, numCenters, buildCenters, buildCenters, ← heq]
    simp only [List.length_cons, List.length_nil] at hmax hfull
    omega
  · have heps2pos : 0 < eps2 := lt_of_lt_of_le (by linarith) h2
    have heps2 : 0 ≤ eps2 := le_of_lt heps2pos
    have he12 : eps1 ≤ eps2 := by linarith
    have hsq12 : eps1 * eps1 ≤ eps2 * eps2 := mul_self_le_mul_self h1 he12
    have hsq4 : (2 * eps1) * (2 * eps1) ≤ eps2 * eps2 :=
      mul_self_le_mul_self (by linarith) h2
    set L1 := (buildCenters seed eps1 stream).map Prod.snd with hL1
    set L2 := (buildCenters seed eps2 stream).map Prod.snd with hL2
    have hsep2 : L2.Pairwise (fun u w => ¬ sqDist u w < eps2 * eps2) := by
      rw [hL2, buildCenters]
      exact clusterLoopA_sep eps2 stream _ heps2 hnd hdisj (by simp)
    have hsub2 : ∀ w ∈ L2, w = seed ∨ w ∈ stream.map (fun e => e.2.2) := by
      intro w hw
      rw [hL2, buildCenters] at hw
      rcases clusterLoopA_vecs_subset eps2 stream _ w hw with h | h
      · left; simpa using h
      · right; exact h
    have hsub1 : ∀ w ∈ L1, w = seed ∨ w ∈ stream.map (fun e => e.2.2) := by
      intro w hw
      rw [hL1, buildCenters] at hw
      rcases clusterLoopA_vecs_subset eps1 stream _ w hw with h | h
      · left; simpa using h
      · right; exact h
    have hseedL1 : seed ∈ L1 := by
      rw [hL1, buildCenters]
      exact mem_vecs_mono
        (clusterLoopA_grows eps1 stream _ hnd hdisj) (by simp)
    have hcov : ∀ w ∈ L2, ∃ u ∈ L1, u = w ∨ distLt u w eps1 = true := by
      intro w hw
      rcases hsub2 w hw with heqw | hmem
      · rw [heqw]
        exact ⟨seed, hseedL1, Or.inl rfl⟩
      · obtain ⟨e, he, hew⟩ := List.mem_map.mp hmem
        obtain ⟨u, hu, hor⟩ :=
          clusterLoopA_coverage eps1 stream _ hnd hdisj e he
        rw [hew] at hor
        refine ⟨u, ?_, hor⟩
        rw [hL1, buildCenters]
        exact hu
    have hlen1 : ∀ x ∈ L1, x.length = seed.length := by
      intro x hx
      rcases hsub1 x hx with rfl | hm
      · rfl
      · obtain ⟨e, he, hex⟩ := List.mem_map.mp hm
        rw [← hex]
        exact hdim e he
    have hlen2 : ∀ x ∈ L2, x.length = seed.length := by
      intro x hx
      rcases hsub2 x hx with rfl | hm
      · rfl
      · obtain ⟨e, he, hex⟩ := List.mem_map.mp hm
        rw [← hex]
        exact hdim e he
    have hnd2 : L2.Nodup := by
      refine List.Pairwise.imp ?_ hsep2
      intro u w hR heqv
      apply hR
      rw [heqv, sqDist_self]
      exact mul_pos heps2pos heps2pos
    classical
    have hsymm : Symmetric (fun u w : Vec => ¬ sqDist u w < eps2 * eps2) := by
      intro x y h
      rwa [sqDist_comm]
    have hcard : L2.toFinset.card ≤ L1.toFinset.card := by
      refine Finset.card_le_card_of_injOn
        (fun w => if h : ∃ u ∈ L1, u = w ∨ distLt u w eps1 = true
          then h.choose else w) ?_ ?_
      · intro w hw
        rw [List.mem_toFinset] at hw
        have h := hcov w hw
        dsimp only
        rw [dif_pos h, List.mem_toFinset]
        exact h.choose_spec.1
      · intro w1 hw1 w2 hw2 hf
        simp only [List.coe_toFinset, Set.mem_setOf_eq] at hw1 hw2
        have h1' := hcov w1 hw1
        have h2' := hcov w2 hw2
        dsimp only at hf
        rw [dif_pos h1', dif_pos h2'] at hf
        obtain ⟨huL1, hor1⟩ := h1'.choose_spec
        obtain ⟨-, hor2⟩ := h2'.choose_spec
        rw [← hf] at hor2
        by_contra hne
        have hfar := hsep2.forall hsymm hw1 hw2 hne
        rcases hor1 with heq1 | hd1 <;> rcases hor2 with heq2 | hd2
        · exact hne (heq1.symm.trans heq2)
        · have hb := (distLt_iff _ _ _).mp hd2
          have hlt : sqDist w1 w2 < eps1 * eps1 := by
            rw [← heq1]
            exact hb.2
          exact hfar (lt_of_lt_of_le hlt hsq12)
        · have ha := (distLt_iff _ _ _).mp hd1
          have hlt : sqDist w1 w2 < eps1 * eps1 := by
            rw [sqDist_comm, ← heq2]
            exact ha.2
          exact hfar (lt_of_lt_of_le hlt hsq12)
        · have ha := (distLt_iff _ _ _).mp hd1
          have hb := (distLt_iff _ _ _).mp hd2
          have htri := sqDist_triangle2 w1 h1'.choose w2
            (by rw [hlen2 w1 hw1, hlen1 _ huL1])
            (by rw [hlen1 _ huL1, hlen2 w2 hw2])
          have hcomm : sqDist w1 h1'.choose = sqDist h1'.choose w1 :=
            sqDist_comm _ _
          have h44 : (2 * eps1) * (2 * eps1) = 4 * (eps1 * eps1) := by ring
          apply hfar
          rw [hcomm] at htri
          linarith [ha.2, hb.2, htri, hsq4, h44]
    rw [List.toFinset_card_of_nodup hnd2] at hcard
    have hfin := le_trans hcard (List.toFinset_card_le L1)
    have e2 : L2.length = (buildCenters seed eps2 stream).length := by
      rw [hL2, List.length_map]
    have e1 : L1.length = (buildCenters seed eps1 stream).length := by
      rw [hL1, List.length_map]
    rw [numCenters, numCenters]
    omega

/-- Witness for the amended C5 at the counterexample stream with
`eps1 = 1`, `eps2 = 2`. -/
theorem ler_threshold_monotone_doubled_witness :
    FreshIds cex5stream ∧ (0 : ℚ) ≤ 1 ∧ (2 : ℚ) * 1 ≤ 2 ∧
    (∀ e ∈ cex5stream, (e.2.2 : Vec).length = ([0, 0] : Vec).length) ∧
    numCenters [0, 0] 2 cex5stream ≤ numCenters [0, 0] 1 cex5stream :=
  ⟨⟨by decide, by decide⟩, by norm_num, by norm_num, by decide,
    ler_threshold_monotone_doubled [0, 0] 1 2 cex5stream
      ⟨by decide, by decide⟩ (by norm_num) (by norm_num) (by decide)⟩
